import Mathlib

/-!
Shallow embedding of the SmartDocFinder core: the incremental ingestion
pipeline (`backend/src/preprocess.py`, `cache_manager.py`, `index_manager.py`)
and the hybrid-ranking search engine (`backend/src/search_engine.py`).

Python strings are modelled as Lean `String`/`List Char`; machine floats are
modelled exactly over a `LinearOrderedField` (instantiated at `ℚ` for
computation and at `ℝ` where `math.log` matters); `math.log` is passed as an
explicit function parameter `lg` and instantiated with `Real.log` in the
claims that depend on it.  Fallible operations return `Option`/`Except`.
-/

namespace SmartDoc

/-! ### Text utilities (`preprocess.clean_text` helpers, `search_engine` tokenizer) -/

/-- Whitespace characters removed by Python `str.strip()` (ASCII subset). -/
def pyIsSpace (c : Char) : Bool :=
  c = ' ' || c = '\t' || c = '\n' || c = '\r' || c = '\x0b' || c = '\x0c'

/-- Python `str.strip()` on a character list: drop leading and trailing
whitespace. -/
def pyStrip (s : List Char) : List Char :=
  ((s.dropWhile pyIsSpace).reverse.dropWhile pyIsSpace).reverse

/-- A character matched by the tokenizer regex `[a-zA-Z0-9]+` after
lowercasing (ASCII letters and digits). -/
def isTokenChar (c : Char) : Bool := c.isAlpha || c.isDigit

/-- Maximal runs of token characters, as in `re.findall(r"[a-zA-Z0-9]+", ·)`:
a token character followed by another extends the first run of the rest
(which starts exactly at that character); a token character at a boundary
opens a run; other characters separate runs.  The inner `[]` case is
unreachable, as the rest starts with a token character there. -/
def tokenRuns : List Char → List (List Char)
  | [] => []
  | c :: cs =>
    let rest := tokenRuns cs
    if isTokenChar c then
      match cs with
      | [] => [[c]]
      | c2 :: _ =>
        if isTokenChar c2 then
          match rest with
          | r :: rs => (c :: r) :: rs
          | [] => [[c]]
        else [c] :: rest
    else rest

/-- `SearchEngine._tokenize` (search_engine.py line 36-37):
`re.findall(r"[a-zA-Z0-9]+", text.lower())`. -/
def tokenize (s : String) : List String :=
  (tokenRuns (s.data.map Char.toLower)).map (fun cs => String.mk cs)

/-- Lexicographic comparison of character lists by code point, the order
Python `sorted` uses on strings. -/
def charListLe : List Char → List Char → Bool
  | [], _ => true
  | _ :: _, [] => false
  | a :: as, b :: bs => if a = b then charListLe as bs else decide (a.toNat ≤ b.toNat)

/-- String order used when sorting overlap keywords. -/
def strLe (a b : String) : Bool := charListLe a.data b.data

/-! ### Data model (`cache_manager.Document`) -/

/-- `cache_manager.Document` (cache_manager.py lines 16-22). -/
structure Document where
  doc_id : String
  filepath : String
  category : String
  length_tokens : Nat
  sha256_hash : String
deriving DecidableEq

/-- The `documents` table, keyed by `doc_id`; `none` models a missing row. -/
def Store : Type := String → Option Document

/-- `cache_manager.get_document` (cache_manager.py lines 84-98). -/
def get_document (store : Store) (doc_id : String) : Option Document :=
  store doc_id

/-- `cache_manager.upsert_document` (cache_manager.py lines 65-81):
insert-or-replace by `doc_id`. -/
def upsert_document (store : Store) (doc : Document) : Store :=
  fun k => if k = doc.doc_id then some doc else store k

/-! ### Ingestion (`preprocess.py`) -/

/-- The scan loop body of `preprocess.scan_documents` (lines 36-57): append
each found document and stop once `max_docs > 0` documents are collected. -/
def scanLoop (max_docs : Nat) (docs : List (Document × String)) :
    List (Document × String) → List (Document × String)
  | [] => docs
  | d :: rest =>
    let docs1 := docs ++ [d]
    if 0 < max_docs ∧ max_docs ≤ docs1.length then docs1
    else scanLoop max_docs docs1 rest

/-- `preprocess.scan_documents` (lines 30-57), abstracted over the list of
eligible `.txt` files found by `rglob` in traversal order, each already paired
with its cleaned text. -/
def scan_documents (corpus : List (Document × String)) (max_docs : Nat) :
    List (Document × String) :=
  scanLoop max_docs [] corpus

/-- The per-document diff loop of `preprocess.main` (lines 68-79): upsert
every scanned document and collect the ids and texts needing fresh
embeddings.  Returns (updated store, to_embed_ids, to_embed_texts). -/
def embedPlan (store : Store) :
    List (Document × String) → Store × List String × List String
  | [] => (store, [], [])
  | (doc, cleaned) :: rest =>
    let needs :=
      match get_document store doc.doc_id with
      | none => true
      | some existing => decide (existing.sha256_hash ≠ doc.sha256_hash)
    let store1 := upsert_document store doc
    let r := embedPlan store1 rest
    if needs then (r.1, doc.doc_id :: r.2.1, cleaned :: r.2.2) else r

/-- The set of documents the `__main__` entry point of preprocess.py (lines
118-167) feeds to the per-document loop: with `max_docs > 0` it scans with
the cap, and only when the capped scan exceeds the cap does it run the
nested `main_with_limit` on the slice; otherwise it calls `main`, which
rescans without any cap (line 64). -/
def entryProcessedDocs (corpus : List (Document × String)) (max_docs : Nat) :
    List (Document × String) :=
  if 0 < max_docs then
    let all_docs := scan_documents corpus max_docs
    if max_docs < all_docs.length then all_docs.take max_docs
    else scan_documents corpus 0
  else scan_documents corpus 0

/-- A concrete three-document corpus used to exercise the entry point. -/
def sampleCorpus : List (Document × String) :=
  [ (⟨"a.txt", "/d/a.txt", "default", 1, "ha"⟩, "ta"),
    (⟨"b.txt", "/d/b.txt", "default", 1, "hb"⟩, "tb"),
    (⟨"c.txt", "/d/c.txt", "default", 1, "hc"⟩, "tc") ]

/-! ### Vector index (`index_manager.py`) -/

variable {α : Type} [LinearOrderedField α]

/-- A `faiss.IndexFlatIP`: a fixed dimension and the flat list of stored
row vectors, searched by exact inner product. -/
structure FaissIndexFlatIP (α : Type) where
  dim : Nat
  vectors : List (List α)

/-- `index.ntotal`: number of stored vectors. -/
def FaissIndexFlatIP.ntotal (idx : FaissIndexFlatIP α) : Nat :=
  idx.vectors.length

/-- The pair of artifacts `build_index` persists: the FAISS index file and
the sidecar id list (`index_meta.json`'s `ids`). -/
structure IndexArtifacts (α : Type) where
  indexFile : FaissIndexFlatIP α
  metaIds : List String

/-- `index_manager.build_index` (index_manager.py lines 14-26): raise
`ValueError` when `embeddings.size == 0` (numpy size = total element count),
otherwise build an `IndexFlatIP` of the matrix's column dimension, add the
rows, and persist both artifacts.  The error case yields no artifacts. -/
def build_index (embeddings : List (List α)) (ids : List String) :
    Except String (IndexArtifacts α) :=
  if (embeddings.map List.length).sum = 0 then
    Except.error "No embeddings available to build index."
  else
    Except.ok ⟨⟨(embeddings.headD []).length, embeddings⟩, ids⟩

/-- `index_manager.load_index` (lines 29-38) applied to persisted artifacts:
read back the index and the id list. -/
def load_index (a : IndexArtifacts α) : FaissIndexFlatIP α × List String :=
  (a.indexFile, a.metaIds)

/-- `build_index` followed by `load_index`, the persist/load round trip. -/
def buildAndLoad (embeddings : List (List α)) (ids : List String) :
    Except String (FaissIndexFlatIP α × List String) :=
  (build_index embeddings ids).map load_index

/-- Outcome of the index phase at the end of `preprocess.main`. -/
inductive BuildOutcome (α : Type) where
  | notBuilt : BuildOutcome α
  | built : IndexArtifacts α → BuildOutcome α
  | failed : String → BuildOutcome α

/-- `cache_manager.get_all_embeddings_and_ids` (cache_manager.py lines
147-165) over the `embeddings` table rows (doc_id, vector): ids in row
order paired with the stacked matrix; the empty table gives `([], [])`. -/
def get_all_embeddings_and_ids (embStore : List (String × List α)) :
    List String × List (List α) :=
  (embStore.map Prod.fst, embStore.map Prod.snd)

/-- The index phase of `preprocess.main` (lines 88-96): fetch all cached
embeddings; when `ids` is empty report "No embeddings in cache" and return
without invoking `build_index`; otherwise build. -/
def mainIndexPhase (embStore : List (String × List α)) : BuildOutcome α :=
  let p := get_all_embeddings_and_ids embStore
  if p.1 = [] then BuildOutcome.notBuilt
  else
    match build_index p.2 p.1 with
    | Except.error m => BuildOutcome.failed m
    | Except.ok a => BuildOutcome.built a

/-! ### Inner-product search over the flat index -/

/-- Inner product of two rows (truncating zip, as numpy rows always share
the index dimension). -/
def dot (u v : List α) : α :=
  (List.zipWith (fun a b => a * b) u v).sum

instance decRelSndLe : DecidableRel (fun (a b : ℤ × α) => b.2 ≤ a.2) :=
  fun a b => inferInstanceAs (Decidable (b.2 ≤ a.2))

instance totalSndLe : IsTotal (ℤ × α) (fun a b => b.2 ≤ a.2) :=
  ⟨fun a b => le_total b.2 a.2⟩

instance transSndLe : IsTrans (ℤ × α) (fun a b => b.2 ≤ a.2) :=
  ⟨fun _ _ _ h1 h2 => le_trans h2 h1⟩

/-- `index.search(q, k)` on an `IndexFlatIP`: score every stored row by
inner product with the query and return the `k` best (row, score) pairs in
descending score order.  Row numbers are returned as machine integers, as
FAISS does. -/
def indexSearch (idx : FaissIndexFlatIP α) (q : List α) (k : Nat) :
    List (ℤ × α) :=
  (List.insertionSort (fun a b => b.2 ≤ a.2)
    ((idx.vectors.enum).map (fun p => ((p.1 : ℤ), dot q p.2)))).take k

/-! ### Search engine (`search_engine.py`) -/

/-- `search_engine.SearchResult` (search_engine.py lines 17-27). -/
structure SearchResult (α : Type) where
  doc_id : String
  score : α
  cosine_sim : α
  overlap_ratio : α
  len_score : α
  overlap_keywords : List String
  preview : String
  category : String
  reason : String
deriving DecidableEq

/-- The fields computed by `SearchEngine._compute_explanation` (lines 46-77). -/
structure Explanation (α : Type) where
  score : α
  cosine_sim : α
  overlap_ratio : α
  len_score : α
  overlap_keywords : List String
  reason : String
deriving DecidableEq

/-- `SearchEngine._make_preview` (lines 39-44): strip, collapse newlines to
spaces, return whole if within `max_chars`, else the first `max_chars - 3`
characters followed by `"..."`.  Called with `max_chars = 400`. -/
def _make_preview (text : String) (max_chars : Nat) : String :=
  let t := (pyStrip text.data).map (fun c => if c = '\n' then ' ' else c)
  if t.length ≤ max_chars then String.mk t
  else String.mk (t.take (max_chars - 3) ++ ['.', '.', '.'])

/-- `SearchEngine._compute_explanation` (lines 46-77).  `lg` models
`math.log`; the weights 0.7 / 0.2 / 0.1 are the exact rationals behind the
source's float literals. -/
def _compute_explanation (lg : α → α) (query doc_text : String)
    (doc_length_tokens : Nat) (cosine_sim : α) : Explanation α :=
  let q_tokens := tokenize query
  let d_tokens := tokenize doc_text
  let q_set := q_tokens.dedup
  let d_set := d_tokens.dedup
  let overlap :=
    List.insertionSort (fun a b => strLe a b = true)
      (q_set.filter (fun t => t ∈ d_set))
  let overlap_ratio : α :=
    if q_set.isEmpty then 0 else (overlap.length : α) / (q_set.length : α)
  let len_score : α := 1 / (1 + lg (1 + ((max doc_length_tokens 1 : Nat) : α)))
  let final_score := 7/10 * cosine_sim + 2/10 * overlap_ratio + 1/10 * len_score
  let reason :=
    if overlap.isEmpty then
      "High semantic similarity even without exact keyword overlap."
    else
      "Semantic match with overlapping keywords: "
        ++ String.intercalate ", " (overlap.take 5) ++ "."
  ⟨final_score, cosine_sim, overlap_ratio, len_score, overlap, reason⟩

/-- `search_engine.SearchEngine` together with its process-wide
collaborators: the loaded index and id mapping (constructor arguments,
lines 31-33), `cache_manager.get_document`, the per-hit file read (line
103, `none` models `FileNotFoundError`), the opaque embedding capability,
and `math.log`. -/
structure SearchEngine (α : Type) where
  index : FaissIndexFlatIP α
  id_mapping : List String
  getDoc : String → Option Document
  readFile : String → Option String
  embedQueryFn : String → List α
  lg : α → α

instance decRelScoreLe : DecidableRel (fun (a b : SearchResult α) => b.score ≤ a.score) :=
  fun a b => inferInstanceAs (Decidable (b.score ≤ a.score))

instance totalScoreLe : IsTotal (SearchResult α) (fun a b => b.score ≤ a.score) :=
  ⟨fun a b => le_total b.score a.score⟩

instance transScoreLe : IsTrans (SearchResult α) (fun a b => b.score ≤ a.score) :=
  ⟨fun _ _ _ h1 h2 => le_trans h2 h1⟩

/-- The per-hit loop of `SearchEngine.search` (lines 92-127): skip a hit
whose row number is negative or beyond the id mapping (lines 93-96); skip a
hit whose document record is missing; read the document text treating a
missing file as empty; build the explained result. -/
def processHits (e : SearchEngine α) (query : String) :
    List (ℤ × α) → List (SearchResult α)
  | [] => []
  | (idx, score) :: rest =>
    if idx < 0 ∨ (e.id_mapping.length : ℤ) ≤ idx then processHits e query rest
    else
      let doc_id := e.id_mapping.getD idx.toNat ""
      match e.getDoc doc_id with
      | none => processHits e query rest
      | some doc =>
        let text := (e.readFile doc.filepath).getD ""
        let expl := _compute_explanation e.lg query text doc.length_tokens score
        let preview := _make_preview text 400
        ⟨doc.doc_id, expl.score, expl.cosine_sim, expl.overlap_ratio,
          expl.len_score, expl.overlap_keywords, preview, doc.category,
          expl.reason⟩ :: processHits e query rest

/-- `SearchEngine.search` (lines 79-131): blank query returns `[]`; an
empty index returns `[]`; otherwise take the top `min(top_k, ntotal)` index
hits, process them, and stable-sort the results by descending composite
score. -/
def search (e : SearchEngine α) (query : String) (top_k : Nat) :
    List (SearchResult α) :=
  if (pyStrip query.data).isEmpty then []
  else
    let q_emb := e.embedQueryFn query
    if e.index.ntotal = 0 then []
    else
      let k := min top_k e.index.ntotal
      let hits := indexSearch e.index q_emb k
      let results := processHits e query hits
      List.insertionSort (fun a b => b.score ≤ a.score) results

/-- The length prior of `_compute_explanation` line 61 with `math.log`
taken as the real natural logarithm:
`1.0 / (1.0 + math.log(1.0 + max(doc_length_tokens, 1)))`. -/
noncomputable def len_score_real (doc_length_tokens : Nat) : ℝ :=
  1 / (1 + Real.log (1 + ((max doc_length_tokens 1 : Nat) : ℝ)))

/-! ### Concrete instances used by witnesses -/

/-- A stored document for exercising the diff logic. -/
def docW : Document := ⟨"w.txt", "/d/w.txt", "default", 2, "hw"⟩

/-- A store already holding `docW`. -/
def storeW : Store := fun k => if k = "w.txt" then some docW else none

/-- The empty store. -/
def storeE : Store := fun _ => none

/-- Documents backing the two-vector demo engine. -/
def docA6 : Document := ⟨"a", "/f/a", "pets", 2, "h1"⟩

def docB6 : Document := ⟨"b", "/f/b", "finance", 3, "h2"⟩

/-- A two-document rational engine: unit basis vectors, id mapping
`["a", "b"]`, in-store documents, on-disk texts, a fixed query embedding
and a stub logarithm. -/
def e6 : SearchEngine ℚ :=
  ⟨⟨2, [[1, 0], [0, 1]]⟩, ["a", "b"],
    fun i => if i = "a" then some docA6 else if i = "b" then some docB6 else none,
    fun p => if p = "/f/a" then some "cat dog"
      else if p = "/f/b" then some "stock market finance" else none,
    fun _ => [0, 1],
    fun _ => 0⟩

/-- A one-vector rational engine; with a single hit, no score comparison is
needed anywhere in `search`. -/
def e1q : SearchEngine ℚ :=
  ⟨⟨1, [[1]]⟩, ["a"], fun i => if i = "a" then some docA6 else none,
    fun _ => none, fun _ => [1], fun _ => 0⟩

/-- The single result of the one-vector engine on query "dog". -/
def hit6 : SearchResult ℚ :=
  (search e1q "dog" 5).headD ⟨"", 0, 0, 0, 0, [], "", "", ""⟩

/-- An engine whose loaded index holds zero vectors. -/
def e5empty : SearchEngine ℚ :=
  ⟨⟨0, []⟩, [], fun _ => none, fun _ => none, fun _ => [], fun _ => 0⟩

/-- Document backing the one-vector real engine. -/
def doc8 : Document := ⟨"d", "/f/d", "cat", 3, "h"⟩

/-- A one-vector engine over `ℝ` whose logarithm is the real `math.log`. -/
noncomputable def e8 : SearchEngine ℝ :=
  ⟨⟨1, [[1]]⟩, ["d"], fun i => if i = "d" then some doc8 else none,
    fun _ => none, fun _ => [1], Real.log⟩

/-- The single result of the real engine on query "a". -/
noncomputable def hit8r : SearchResult ℝ :=
  (search e8 "a" 1).headD ⟨"", 0, 0, 0, 0, [], "", "", ""⟩

/-! ### Helper lemmas -/

/-- The default head of a non-empty list is a member. -/
theorem headD_mem_of_ne_nil {β : Type} (l : List β) (d : β) (h : l ≠ []) :
    l.headD d ∈ l := by
  cases l with
  | nil => exact absurd rfl h
  | cons x xs => exact List.mem_cons_self x xs

/-- `search` with all lets inlined, for rewriting. -/
theorem search_eval (e : SearchEngine α) (q : String) (k : Nat) :
    search e q k =
      if (pyStrip q.data).isEmpty then []
      else if e.index.ntotal = 0 then []
      else
        List.insertionSort (fun a b => b.score ≤ a.score)
          (processHits e q
            (indexSearch e.index (e.embedQueryFn q) (min k e.index.ntotal))) :=
  rfl

/-- A scan started below the cap never collects more than `max_docs`
documents. -/
theorem scanLoop_length_le (rest : List (Document × String)) (m : Nat) :
    ∀ acc : List (Document × String), acc.length < m →
      (scanLoop m acc rest).length ≤ m := by
  induction rest with
  | nil => exact fun _ hacc => Nat.le_of_lt hacc
  | cons d rest ih =>
    intro acc hacc
    have h0 : 0 < m := Nat.lt_of_le_of_lt (Nat.zero_le _) hacc
    show (if 0 < m ∧ m ≤ (acc ++ [d]).length
        then acc ++ [d] else scanLoop m (acc ++ [d]) rest).length ≤ m
    by_cases hstop : m ≤ (acc ++ [d]).length
    · rw [if_pos ⟨h0, hstop⟩]
      have : (acc ++ [d]).length = acc.length + 1 := by simp
      rw [this]
      exact Nat.succ_le_of_lt hacc
    · rw [if_neg (fun hc => hstop hc.2)]
      exact ih (acc ++ [d]) (Nat.lt_of_not_le hstop)

/-- With a positive cap, the capped scan never exceeds the cap, so the
entry point's `len(all_docs) > max_docs` guard is always false and the run
falls through to the uncapped `main`. -/
theorem entry_cap_falls_through (corpus : List (Document × String)) (m : Nat)
    (hm : 0 < m) : entryProcessedDocs corpus m = scan_documents corpus 0 := by
  show (if 0 < m then
      if m < (scan_documents corpus m).length then (scan_documents corpus m).take m
      else scan_documents corpus 0
    else scan_documents corpus 0) = scan_documents corpus 0
  have hle : (scan_documents corpus m).length ≤ m := scanLoop_length_le corpus m [] hm
  rw [if_pos hm, if_neg (Nat.not_lt_of_le hle)]

/-! ### C1 -/

/-- C1: the claim says a build run invoked with a positive document-count
cap processes at most `max_docs` documents.  The code violates this: since
`scan_documents` already truncates at the cap, the guard
`len(all_docs) > max_docs` in `__main__` never holds, so every capped run
falls through to `main`, which rescans the corpus without any cap.  On a
three-document corpus with cap 1, the run processes all three documents
even though a capped scan finds exactly one. -/
theorem c1_cap_ignored :
    (∀ (corpus : List (Document × String)) (m : Nat), 0 < m →
        entryProcessedDocs corpus m = scan_documents corpus 0) ∧
      entryProcessedDocs sampleCorpus 1 = sampleCorpus ∧
      sampleCorpus.length = 3 ∧ (scan_documents sampleCorpus 1).length = 1 :=
  ⟨entry_cap_falls_through, by decide, by decide, by decide⟩

/-- C1 witness: the general fall-through fact applied at cap 2 on the
sample corpus. -/
theorem c1_cap_ignored_witness :
    entryProcessedDocs sampleCorpus 2 = scan_documents sampleCorpus 0 :=
  c1_cap_ignored.1 sampleCorpus 2 (by decide)

/-! ### C2 -/

/-- C2: per scanned document, the diff loop of `preprocess.main`: when the
stored record exists with an equal content hash, the document is not added
to the re-embedding batch — processing continues on the rest with only the
metadata upsert applied — and the upserted store holds the current
metadata; when the record is absent or its hash differs, the document's id
and cleaned text head the re-embedding batch and the metadata is upserted
as well. -/
theorem c2_diff_logic (store : Store) (doc : Document) (cleaned : String)
    (rest : List (Document × String)) :
    (∀ existing, get_document store doc.doc_id = some existing →
        existing.sha256_hash = doc.sha256_hash →
        embedPlan store ((doc, cleaned) :: rest) =
            embedPlan (upsert_document store doc) rest ∧
          get_document (upsert_document store doc) doc.doc_id = some doc) ∧
    (get_document store doc.doc_id = none ∨
        (∃ existing, get_document store doc.doc_id = some existing ∧
          existing.sha256_hash ≠ doc.sha256_hash) →
        (embedPlan store ((doc, cleaned) :: rest)).2.1.head? = some doc.doc_id ∧
          (embedPlan store ((doc, cleaned) :: rest)).2.2.head? = some cleaned ∧
          (embedPlan store ((doc, cleaned) :: rest)).1 =
            (embedPlan (upsert_document store doc) rest).1 ∧
          get_document (upsert_document store doc) doc.doc_id = some doc) := by
  have hup : get_document (upsert_document store doc) doc.doc_id = some doc := by
    show (if doc.doc_id = doc.doc_id then some doc else store doc.doc_id) = some doc
    rw [if_pos rfl]
  constructor
  · intro existing hex hhash
    refine ⟨?_, hup⟩
    simp only [embedPlan, hex]
    simp [hhash]
  · intro hch
    have hplan : embedPlan store ((doc, cleaned) :: rest) =
        ((embedPlan (upsert_document store doc) rest).1,
          doc.doc_id :: (embedPlan (upsert_document store doc) rest).2.1,
          cleaned :: (embedPlan (upsert_document store doc) rest).2.2) := by
      rcases hch with hnone | ⟨existing, hex, hne⟩
      · simp [embedPlan, hnone]
      · simp only [embedPlan, hex]
        simp [hne]
    rw [hplan]
    exact ⟨rfl, rfl, rfl, hup⟩

/-! ### C3 -/

/-- C3: with zero cached embeddings, the index phase of the build run stops
with "nothing to index" without invoking `build_index`, and `build_index`
itself on an empty vector set fails with the empty-index error, producing
no artifacts. -/
theorem c3_empty_index :
    mainIndexPhase ([] : List (String × List ℚ)) = BuildOutcome.notBuilt ∧
      ∀ ids : List String, build_index ([] : List (List ℚ)) ids =
        Except.error "No embeddings available to build index." :=
  ⟨rfl, fun _ => rfl⟩

/-- C2 witness: the diff logic at a store already holding the document
(unchanged hash) and at the empty store. -/
theorem c2_diff_logic_witness :
    (embedPlan storeW [(docW, "tw")] = embedPlan (upsert_document storeW docW) [] ∧
        get_document (upsert_document storeW docW) docW.doc_id = some docW) ∧
      ((embedPlan storeE [(docW, "tw")]).2.1.head? = some docW.doc_id ∧
        (embedPlan storeE [(docW, "tw")]).2.2.head? = some "tw" ∧
        (embedPlan storeE [(docW, "tw")]).1 =
          (embedPlan (upsert_document storeE docW) []).1 ∧
        get_document (upsert_document storeE docW) docW.doc_id = some docW) :=
  ⟨(c2_diff_logic storeW docW "tw" []).1 docW (by decide) (by decide),
    (c2_diff_logic storeE docW "tw" []).2 (Or.inl rfl)⟩

/-! ### C5 -/

/-- The per-hit loop emits at most one result per hit. -/
theorem processHits_length_le (e : SearchEngine α) (query : String) :
    ∀ hits : List (ℤ × α), (processHits e query hits).length ≤ hits.length := by
  intro hits
  induction hits with
  | nil => exact Nat.le_refl 0
  | cons h rest ih =>
    obtain ⟨idx, score⟩ := h
    simp only [processHits]
    split
    · exact Nat.le_succ_of_le ih
    · cases hgd : e.getDoc (e.id_mapping.getD idx.toNat "") with
      | none => exact Nat.le_succ_of_le ih
      | some doc => simpa using Nat.succ_le_succ ih

/-- C5: a blank/whitespace-only query returns the empty list; an index with
zero vectors returns the empty list; otherwise the result list holds at
most `min top_k ntotal` results. -/
theorem c5_search_guards (e : SearchEngine α) (q : String) (k : Nat) :
    ((pyStrip q.data).isEmpty = true → search e q k = []) ∧
      (e.index.ntotal = 0 → search e q k = []) ∧
      (search e q k).length ≤ min k e.index.ntotal := by
  refine ⟨?_, ?_, ?_⟩
  · intro h
    rw [search_eval, if_pos h]
  · intro h
    rw [search_eval]
    by_cases h1 : (pyStrip q.data).isEmpty
    · rw [if_pos h1]
    · rw [if_neg h1, if_pos h]
  · rw [search_eval]
    split
    · exact Nat.zero_le _
    · split
      · exact Nat.zero_le _
      · rw [List.length_insertionSort]
        refine Nat.le_trans (processHits_length_le e q _) ?_
        rw [indexSearch, List.length_take, List.length_insertionSort,
          List.length_map, List.enum_length]
        exact min_le_left _ _

/-- C5 witness: the blank-query, empty-index and top-k-clamp conclusions at
concrete rational engines. -/
theorem c5_search_guards_witness :
    search e6 "   " 5 = [] ∧ search e5empty "dog" 3 = [] ∧
      (search e6 "dog" 1000).length ≤ min 1000 e6.index.ntotal :=
  ⟨(c5_search_guards e6 "   " 5).1 (by decide),
    (c5_search_guards e5empty "dog" 3).2.1 rfl,
    (c5_search_guards e6 "dog" 1000).2.2⟩

/-! ### C6 -/

/-- Every result the per-hit loop builds satisfies the composite-score
formula over its own fields. -/
theorem processHits_score_eq (e : SearchEngine α) (query : String) :
    ∀ hits : List (ℤ × α), ∀ r ∈ processHits e query hits,
      r.score = 7/10 * r.cosine_sim + 2/10 * r.overlap_ratio
        + 1/10 * r.len_score := by
  intro hits
  induction hits with
  | nil => intro r hr; exact absurd hr (List.not_mem_nil r)
  | cons h rest ih =>
    obtain ⟨idx, score⟩ := h
    intro r hr
    simp only [processHits] at hr
    split at hr
    · exact ih r hr
    · cases hgd : e.getDoc (e.id_mapping.getD idx.toNat "") with
      | none => rw [hgd] at hr; exact ih r hr
      | some doc =>
        rw [hgd] at hr
        rcases List.mem_cons.mp hr with heq | hmem
        · subst heq; rfl
        · exact ih r hmem

/-- Any member of the search output is a member of the per-hit loop
output. -/
theorem mem_search_processHits (e : SearchEngine α) (q : String) (k : Nat)
    (r : SearchResult α) (hr : r ∈ search e q k) :
    r ∈ processHits e q
      (indexSearch e.index (e.embedQueryFn q) (min k e.index.ntotal)) := by
  rw [search_eval] at hr
  split at hr
  · exact absurd hr (List.not_mem_nil r)
  · split at hr
    · exact absurd hr (List.not_mem_nil r)
    · exact (List.mem_insertionSort _).mp hr

/-- C6: the search output is sorted by non-increasing composite score, and
every result's score is `0.7·cosine + 0.2·overlap + 0.1·length` over its
own explanation fields. -/
theorem c6_sorted_composite (e : SearchEngine α) (q : String) (k : Nat) :
    List.Pairwise (fun a b => b.score ≤ a.score) (search e q k) ∧
      ∀ r ∈ search e q k,
        r.score = 7/10 * r.cosine_sim + 2/10 * r.overlap_ratio
          + 1/10 * r.len_score := by
  constructor
  · rw [search_eval]
    split
    · exact List.Pairwise.nil
    · split
      · exact List.Pairwise.nil
      · exact List.sorted_insertionSort _ _
  · intro r hr
    exact processHits_score_eq e q _ r (mem_search_processHits e q k r hr)

/-- C6 witness: sortedness on the demo engine and the score formula at the
one-vector engine's result. -/
theorem c6_sorted_composite_witness :
    List.Pairwise (fun a b => b.score ≤ a.score) (search e6 "dog finance" 5) ∧
      hit6.score = 7/10 * hit6.cosine_sim + 2/10 * hit6.overlap_ratio
        + 1/10 * hit6.len_score :=
  ⟨(c6_sorted_composite e6 "dog finance" 5).1,
    (c6_sorted_composite e1q "dog" 5).2 hit6
      (headD_mem_of_ne_nil _ _ (by
        intro hnil
        have hlen : (search e1q "dog" 5).length = 1 := rfl
        rw [hnil] at hlen
        exact absurd hlen (by decide)))⟩

/-! ### C10 -/

/-- C10: a hit whose row number is negative or not smaller than the loaded
id mapping's length is silently dropped and processing continues with the
remaining hits. -/
theorem c10_out_of_range_skip (e : SearchEngine α) (query : String)
    (idx : ℤ) (score : α) (rest : List (ℤ × α))
    (h : idx < 0 ∨ (e.id_mapping.length : ℤ) ≤ idx) :
    processHits e query ((idx, score) :: rest) = processHits e query rest := by
  simp only [processHits]
  rw [if_pos h]

/-- C10 witness: a FAISS padding row `-1` and a row beyond the mapping are
both dropped on the demo engine. -/
theorem c10_out_of_range_skip_witness :
    processHits e6 "dog" [((-1 : ℤ), (5 : ℚ))] = processHits e6 "dog" [] ∧
      processHits e6 "dog" [((2 : ℤ), (5 : ℚ))] = processHits e6 "dog" [] :=
  ⟨c10_out_of_range_skip e6 "dog" (-1) 5 [] (Or.inl (by decide)),
    c10_out_of_range_skip e6 "dog" 2 5 [] (Or.inr (by decide))⟩

/-! ### C4 -/

/-- `dot` on cons cells. -/
theorem dot_cons (a b : α) (u v : List α) :
    dot (a :: u) (b :: v) = a * b + dot u v := rfl

/-- A vector's inner product with itself is non-negative. -/
theorem dot_self_nonneg (u : List α) : 0 ≤ dot u u := by
  induction u with
  | nil => exact le_rfl
  | cons a as ih =>
    rw [dot_cons]
    exact add_nonneg (mul_self_nonneg a) ih

/-- Expansion of the squared norm of a difference. -/
theorem dot_sub_self (u : List α) : ∀ w : List α, u.length = w.length →
    dot (List.zipWith (fun a b => a - b) u w) (List.zipWith (fun a b => a - b) u w)
      = dot u u - 2 * dot u w + dot w w := by
  induction u with
  | nil =>
    intro w hw
    cases w with
    | nil => show (0:α) = 0 - 2 * 0 + 0; ring
    | cons b bs => simp at hw
  | cons a as ih =>
    intro w hw
    cases w with
    | nil => simp at hw
    | cons b bs =>
      have hlen : as.length = bs.length := by simpa using hw
      rw [List.zipWith_cons_cons, dot_cons, dot_cons, dot_cons, dot_cons,
        ih bs hlen]
      ring

/-- Vectors of equal length whose difference has zero squared norm are
equal. -/
theorem eq_of_dot_sub_self_eq_zero (u : List α) : ∀ w : List α,
    u.length = w.length →
    dot (List.zipWith (fun a b => a - b) u w) (List.zipWith (fun a b => a - b) u w) = 0 →
    u = w := by
  induction u with
  | nil =>
    intro w hw _
    cases w with
    | nil => rfl
    | cons b bs => simp at hw
  | cons a as ih =>
    intro w hw h0
    cases w with
    | nil => simp at hw
    | cons b bs =>
      have hlen : as.length = bs.length := by simpa using hw
      rw [List.zipWith_cons_cons, dot_cons] at h0
      have hd : 0 ≤ dot (List.zipWith (fun a b => a - b) as bs)
          (List.zipWith (fun a b => a - b) as bs) := dot_self_nonneg _
      have hsq : 0 ≤ (a - b) * (a - b) := mul_self_nonneg _
      have h1 : (a - b) * (a - b) = 0 := le_antisymm (by linarith) hsq
      have h2 : dot (List.zipWith (fun a b => a - b) as bs)
          (List.zipWith (fun a b => a - b) as bs) = 0 := by linarith
      rw [sub_eq_zero.mp (mul_self_eq_zero.mp h1), ih bs hlen h2]

/-- Two distinct unit vectors of equal length have inner product strictly
below 1. -/
theorem dot_lt_one_of_ne (u w : List α) (hlen : u.length = w.length)
    (hu : dot u u = 1) (hw : dot w w = 1) (hne : u ≠ w) : dot u w < 1 := by
  by_contra hge
  push_neg at hge
  have hexp := dot_sub_self u w hlen
  rw [hu, hw] at hexp
  have hnn := dot_self_nonneg
    (List.zipWith (fun a b => a - b) u w)
  have h0 : dot (List.zipWith (fun a b => a - b) u w)
      (List.zipWith (fun a b => a - b) u w) = 0 :=
    le_antisymm (by rw [hexp]; linarith) hnn
  exact hne (eq_of_dot_sub_self_eq_zero u w hlen h0)

/-- Searching a flat index of pairwise-distinct unit vectors with one of
its own vectors ranks that vector's row first with score exactly 1. -/
theorem indexSearch_self_head (vectors : List (List α)) (dm d j k : Nat)
    (hdim : ∀ v ∈ vectors, v.length = d)
    (hunit : ∀ v ∈ vectors, dot v v = 1)
    (hdist : List.Pairwise (fun u w => u ≠ w) vectors)
    (hj : j < vectors.length)
    (hk : 1 ≤ k) :
    (indexSearch ⟨dm, vectors⟩ (vectors.get ⟨j, hj⟩) k).head? =
      some ((j : ℤ), 1) := by
  have hqmem : vectors.get ⟨j, hj⟩ ∈ vectors := List.get_mem vectors j hj
  have hmemj : ((j:ℤ), (1:α)) ∈
      (vectors.enum).map
        (fun p => ((p.1 : ℤ), dot (vectors.get ⟨j, hj⟩) p.2)) := by
    have hjq : (j, vectors.get ⟨j, hj⟩) ∈ vectors.enum := by
      rw [List.mem_enum_iff_getElem?]
      show vectors[j]? = some (vectors.get ⟨j, hj⟩)
      rw [List.getElem?_eq_some]
      exact ⟨hj, rfl⟩
    have hmap : ((j : ℤ), dot (vectors.get ⟨j, hj⟩) (vectors.get ⟨j, hj⟩)) ∈
        (vectors.enum).map
          (fun p => ((p.1 : ℤ), dot (vectors.get ⟨j, hj⟩) p.2)) :=
      List.mem_map_of_mem
        (fun p : ℕ × List α => ((p.1 : ℤ), dot (vectors.get ⟨j, hj⟩) p.2)) hjq
    rwa [hunit _ hqmem] at hmap
  have hbound : ∀ p ∈ (vectors.enum).map
      (fun p => ((p.1 : ℤ), dot (vectors.get ⟨j, hj⟩) p.2)),
      p.2 ≤ 1 ∧ (p.2 = 1 → p.1 = (j:ℤ)) := by
    intro p hp
    rw [List.mem_map] at hp
    obtain ⟨⟨i, w⟩, hpr, rfl⟩ := hp
    rw [List.mem_enum_iff_getElem?] at hpr
    dsimp only at hpr ⊢
    obtain ⟨hi, hw⟩ := List.getElem?_eq_some.mp hpr
    by_cases hij : i = j
    · subst hij
      have hwq : w = vectors.get ⟨i, hj⟩ := by rw [← hw]; rfl
      have h1 : dot (vectors.get ⟨i, hj⟩) w = 1 := by
        rw [hwq]; exact hunit _ hqmem
      exact ⟨le_of_eq h1, fun _ => rfl⟩
    · have hwmem : w ∈ vectors := by rw [← hw]; exact List.getElem_mem hi
      have hne : vectors.get ⟨j, hj⟩ ≠ w := by
        have hpw := List.pairwise_iff_get.mp hdist
        rcases Nat.lt_or_ge i j with hlt | hge
        · intro he
          refine hpw ⟨i, hi⟩ ⟨j, hj⟩ hlt ?_
          show vectors.get ⟨i, hi⟩ = vectors.get ⟨j, hj⟩
          rw [he]
          show vectors[i] = w
          exact hw
        · have hlt2 : j < i := Nat.lt_of_le_of_ne hge (fun h => hij h.symm)
          intro he
          refine hpw ⟨j, hj⟩ ⟨i, hi⟩ hlt2 ?_
          show vectors.get ⟨j, hj⟩ = vectors.get ⟨i, hi⟩
          rw [he]
          show w = vectors[i]
          exact hw.symm
      have hlt1 : dot (vectors.get ⟨j, hj⟩) w < 1 :=
        dot_lt_one_of_ne _ _ (by rw [hdim _ hqmem, hdim _ hwmem])
          (hunit _ hqmem) (hunit _ hwmem) hne
      exact ⟨le_of_lt hlt1, fun h1 => absurd h1 (ne_of_lt hlt1)⟩
  have hsorted : List.Sorted (fun a b : ℤ × α => b.2 ≤ a.2)
      (List.insertionSort (fun a b : ℤ × α => b.2 ≤ a.2)
        ((vectors.enum).map
          (fun p => ((p.1 : ℤ), dot (vectors.get ⟨j, hj⟩) p.2)))) :=
    List.sorted_insertionSort _ _
  have hmemjM : ((j:ℤ), (1:α)) ∈
      List.insertionSort (fun a b : ℤ × α => b.2 ≤ a.2)
        ((vectors.enum).map
          (fun p => ((p.1 : ℤ), dot (vectors.get ⟨j, hj⟩) p.2))) :=
    (List.mem_insertionSort _).mpr hmemj
  have hMne : List.insertionSort (fun a b : ℤ × α => b.2 ≤ a.2)
      ((vectors.enum).map
        (fun p => ((p.1 : ℤ), dot (vectors.get ⟨j, hj⟩) p.2))) ≠ [] := by
    intro h
    rw [h] at hmemjM
    exact List.not_mem_nil _ hmemjM
  obtain ⟨h0, t, hMeq⟩ := List.exists_cons_of_ne_nil hMne
  have hh0 : h0 = ((j:ℤ), (1:α)) := by
    rcases List.mem_cons.mp (hMeq ▸ hmemjM) with he | ht
    · exact he.symm
    · have hs := List.sorted_cons.mp (hMeq ▸ hsorted)
      have hle : (1:α) ≤ h0.2 := hs.1 _ ht
      have hh0mem : h0 ∈ (vectors.enum).map
          (fun p => ((p.1 : ℤ), dot (vectors.get ⟨j, hj⟩) p.2)) :=
        ((List.perm_insertionSort _ _).mem_iff).mp
          (hMeq ▸ List.mem_cons_self h0 t)
      have hb := hbound h0 hh0mem
      have h2 : h0.2 = 1 := le_antisymm hb.1 hle
      exact Prod.ext (hb.2 h2) h2
  show ((List.insertionSort (fun a b : ℤ × α => b.2 ≤ a.2)
      ((vectors.enum).map
        (fun p => ((p.1 : ℤ), dot (vectors.get ⟨j, hj⟩) p.2)))).take k).head? =
    some ((j : ℤ), 1)
  rw [List.head?_take, if_neg (by omega), hMeq, hh0]
  rfl

/-- C4: building an index over a non-empty set of pairwise-distinct
L2-normalized vectors with ids, persisting and loading it back yields the
same id list in the same row order, and searching the loaded index with one
of the indexed vectors ranks that vector's row first with inner-product
score exactly 1. -/
theorem c4_round_trip (vectors : List (List α)) (ids : List String)
    (d j k : Nat)
    (hne : vectors ≠ [])
    (hdim : ∀ v ∈ vectors, v.length = d)
    (hunit : ∀ v ∈ vectors, dot v v = 1)
    (hdist : List.Pairwise (fun u w => u ≠ w) vectors)
    (hj : j < vectors.length)
    (hk : 1 ≤ k) :
    ∃ idx : FaissIndexFlatIP α,
      buildAndLoad vectors ids = Except.ok (idx, ids) ∧
        (indexSearch idx (vectors.get ⟨j, hj⟩) k).head? = some ((j : ℤ), 1) := by
  have hsum : ¬ (vectors.map List.length).sum = 0 := by
    cases vectors with
    | nil => exact absurd rfl hne
    | cons v0 rest =>
      have hv0unit : dot v0 v0 = 1 := hunit v0 (List.mem_cons_self _ _)
      have hv0ne : v0 ≠ [] := by
        intro h
        rw [h] at hv0unit
        exact zero_ne_one hv0unit
      have hpos : 0 < v0.length := List.length_pos.mpr hv0ne
      simp only [List.map_cons, List.sum_cons]
      omega
  refine ⟨⟨(vectors.headD []).length, vectors⟩, ?_, ?_⟩
  · show (build_index vectors ids).map load_index = _
    unfold build_index
    rw [if_neg hsum]
    rfl
  · exact indexSearch_self_head vectors (vectors.headD []).length d j k
      hdim hunit hdist hj hk

/-- C4 witness: the round trip on the two standard basis vectors of the
plane with ids `["a", "b"]`, queried with the second vector. -/
theorem c4_round_trip_witness :
    ∃ idx : FaissIndexFlatIP ℚ,
      buildAndLoad [[1, 0], [0, 1]] ["a", "b"] = Except.ok (idx, ["a", "b"]) ∧
        (indexSearch idx (([[(1:ℚ), 0], [0, 1]]).get ⟨1, by decide⟩) 2).head? =
          some ((1 : ℤ), 1) :=
  c4_round_trip [[1, 0], [0, 1]] ["a", "b"] 2 1 2 (by decide)
    (by
      intro v hv
      rcases List.mem_cons.mp hv with rfl | hv
      · rfl
      · rcases List.mem_cons.mp hv with rfl | hv
        · rfl
        · exact absurd hv (List.not_mem_nil v))
    (by
      intro v hv
      rcases List.mem_cons.mp hv with rfl | hv
      · norm_num [dot]
      · rcases List.mem_cons.mp hv with rfl | hv
        · norm_num [dot]
        · exact absurd hv (List.not_mem_nil v))
    (by
      refine List.pairwise_cons.mpr ⟨?_, List.pairwise_cons.mpr ⟨?_, List.Pairwise.nil⟩⟩
      · intro w hw
        rcases List.mem_cons.mp hw with rfl | hw
        · intro h
          have h10 : (1:ℚ) = 0 := by
            have hh := congrArg (fun l => l.headD 0) h
            simp at hh
          norm_num at h10
        · exact absurd hw (List.not_mem_nil w)
      · intro w hw
        exact absurd hw (List.not_mem_nil w))
    (by norm_num) (by norm_num)

/-! ### C7 -/

/-- C7 counterexample: the claim asserts the length score is strictly
decreasing over all token counts ≥ 0; but `max(tokenCount, 1)` makes the
scores at token counts 0 and 1 equal, so the score does not strictly
decrease from 0 to 1. -/
theorem c7_counterexample : ¬ len_score_real 1 < len_score_real 0 := by
  have h : len_score_real 0 = len_score_real 1 := by norm_num [len_score_real]
  rw [h]
  exact lt_irrefl _

/-- C7 amended: the length score `1 / (1 + ln(1 + max(tokenCount, 1)))` is
strictly decreasing in the token count over all token counts ≥ 1 (and
constant between 0 and 1). -/
theorem c7_len_score_strict_anti (m n : Nat) (hm : 1 ≤ m) (hmn : m < n) :
    len_score_real n < len_score_real m := by
  have hn : 1 ≤ n := Nat.le_of_lt (Nat.lt_of_le_of_lt hm hmn)
  have hmax_m : max m 1 = m := Nat.max_eq_left hm
  have hmax_n : max n 1 = n := Nat.max_eq_left hn
  unfold len_score_real
  rw [hmax_m, hmax_n]
  have hm0 : (0:ℝ) ≤ (m:ℝ) := Nat.cast_nonneg m
  have hlog0 : (0:ℝ) ≤ Real.log (1 + (m:ℝ)) := Real.log_nonneg (by linarith)
  have hlt : Real.log (1 + (m:ℝ)) < Real.log (1 + (n:ℝ)) :=
    Real.log_lt_log (by linarith) (by
      have := (Nat.cast_lt (α := ℝ)).mpr hmn
      linarith)
  exact one_div_lt_one_div_of_lt (by linarith) (by linarith)

/-- C7 witness: the amended strict decrease at token counts 1 and 2. -/
theorem c7_len_score_strict_anti_witness :
    1 ≤ 1 ∧ 1 < 2 ∧ len_score_real 2 < len_score_real 1 :=
  ⟨Nat.le_refl 1, by norm_num, c7_len_score_strict_anti 1 2 (Nat.le_refl 1) (by norm_num)⟩

/-! ### C8 -/

/-- The overlap ratio computed by `_compute_explanation` lies in `[0, 1]`
and is `0` when the query has no tokens. -/
theorem expl_overlap_bounds (lg : α → α) (q text : String) (n : Nat) (cos : α) :
    0 ≤ (_compute_explanation lg q text n cos).overlap_ratio ∧
      (_compute_explanation lg q text n cos).overlap_ratio ≤ 1 ∧
      (tokenize q = [] → (_compute_explanation lg q text n cos).overlap_ratio = 0) := by
  have hproj : (_compute_explanation lg q text n cos).overlap_ratio =
      (if (tokenize q).dedup.isEmpty then (0:α) else
        (((List.insertionSort (fun a b => strLe a b = true)
            (((tokenize q).dedup).filter (fun t => t ∈ (tokenize text).dedup))).length : α) /
          (((tokenize q).dedup).length : α))) := rfl
  rw [hproj]
  by_cases h : (tokenize q).dedup.isEmpty
  · rw [if_pos h]
    exact ⟨le_refl 0, zero_le_one, fun _ => rfl⟩
  · rw [if_neg h]
    have hpos : 0 < (tokenize q).dedup.length :=
      List.length_pos.mpr (fun hnil => h (by rw [hnil]; rfl))
    have hcast : (0:α) < (((tokenize q).dedup).length : α) := by
      exact_mod_cast hpos
    refine ⟨div_nonneg (Nat.cast_nonneg _) (Nat.cast_nonneg _), ?_, ?_⟩
    · rw [div_le_one hcast]
      have hle : (List.insertionSort (fun a b => strLe a b = true)
          (((tokenize q).dedup).filter (fun t => t ∈ (tokenize text).dedup))).length ≤
          ((tokenize q).dedup).length := by
        rw [List.length_insertionSort]
        exact List.length_filter_le _ _
      exact_mod_cast hle
    · intro hq
      exact absurd (by rw [hq]; rfl) h

/-- The length score computed by `_compute_explanation` with the real
logarithm lies in `(0, 1]`. -/
theorem expl_len_bounds (q text : String) (n : Nat) (cos : ℝ) :
    0 < (_compute_explanation Real.log q text n cos).len_score ∧
      (_compute_explanation Real.log q text n cos).len_score ≤ 1 := by
  have hproj : (_compute_explanation Real.log q text n cos).len_score =
      len_score_real n := rfl
  rw [hproj]
  unfold len_score_real
  have hc : (0:ℝ) ≤ ((max n 1 : Nat) : ℝ) := Nat.cast_nonneg _
  have hlog : (0:ℝ) ≤ Real.log (1 + ((max n 1 : Nat) : ℝ)) :=
    Real.log_nonneg (by linarith)
  constructor
  · exact one_div_pos.mpr (by linarith)
  · rw [div_le_one (by linarith)]
    linarith

/-- Every result of the per-hit loop of an engine whose `math.log` is the
real logarithm has its overlap ratio in `[0, 1]` (and `0` for token-free
queries) and its length score in `(0, 1]`. -/
theorem processHits_bounds (e : SearchEngine ℝ) (q : String)
    (hlg : e.lg = Real.log) :
    ∀ hits : List (ℤ × ℝ), ∀ r ∈ processHits e q hits,
      0 ≤ r.overlap_ratio ∧ r.overlap_ratio ≤ 1 ∧
        (tokenize q = [] → r.overlap_ratio = 0) ∧
        0 < r.len_score ∧ r.len_score ≤ 1 := by
  intro hits
  induction hits with
  | nil => intro r hr; exact absurd hr (List.not_mem_nil r)
  | cons h rest ih =>
    obtain ⟨idx, score⟩ := h
    intro r hr
    simp only [processHits] at hr
    split at hr
    · exact ih r hr
    · cases hgd : e.getDoc (e.id_mapping.getD idx.toNat "") with
      | none => rw [hgd] at hr; exact ih r hr
      | some doc =>
        rw [hgd] at hr
        rcases List.mem_cons.mp hr with heq | hmem
        · subst heq
          rw [hlg] at *
          have hov := expl_overlap_bounds Real.log q
            ((e.readFile doc.filepath).getD "") doc.length_tokens score
          have hlen := expl_len_bounds q
            ((e.readFile doc.filepath).getD "") doc.length_tokens score
          exact ⟨hov.1, hov.2.1, hov.2.2, hlen.1, hlen.2⟩
        · exact ih r hmem

/-- C8: every result `search` produces (with `math.log` the real logarithm)
has `0 ≤ overlapRatio ≤ 1`, `overlapRatio = 0` when the query has no
tokens, and `0 < lenScore ≤ 1`. -/
theorem c8_score_component_bounds (e : SearchEngine ℝ) (q : String) (k : Nat)
    (hlg : e.lg = Real.log) :
    ∀ r ∈ search e q k,
      0 ≤ r.overlap_ratio ∧ r.overlap_ratio ≤ 1 ∧
        (tokenize q = [] → r.overlap_ratio = 0) ∧
        0 < r.len_score ∧ r.len_score ≤ 1 :=
  fun r hr => processHits_bounds e q hlg _ r (mem_search_processHits e q k r hr)

/-- C8 witness: the bounds at the real engine's single result. -/
theorem c8_score_component_bounds_witness :
    0 ≤ hit8r.overlap_ratio ∧ hit8r.overlap_ratio ≤ 1 ∧
      (tokenize "a" = [] → hit8r.overlap_ratio = 0) ∧
      0 < hit8r.len_score ∧ hit8r.len_score ≤ 1 :=
  c8_score_component_bounds e8 "a" 1 rfl hit8r (by
    show (search e8 "a" 1).headD ⟨"", 0, 0, 0, 0, [], "", "", ""⟩ ∈ search e8 "a" 1
    refine headD_mem_of_ne_nil _ _ (fun hnil => ?_)
    have hlen : (search e8 "a" 1).length = 1 := rfl
    rw [hnil] at hlen
    exact absurd hlen (by decide))

/-! ### C9 -/

set_option maxRecDepth 4096 in
/-- C9 counterexample: the claim asserts any text longer than 400
characters after collapsing newlines yields a 400-character preview ending
in an ellipsis; but `_make_preview` strips leading/trailing whitespace
first, so a 401-character text of one letter and 400 spaces (unchanged by
newline collapsing) yields the one-character preview `"a"`. -/
theorem c9_counterexample :
    ((String.mk ('a' :: List.replicate 400 ' ')).data.map
        (fun c => if c = '\n' then ' ' else c)).length = 401 ∧
      _make_preview (String.mk ('a' :: List.replicate 400 ' ')) 400 = "a" := by
  constructor
  · decide
  · decide

/-- C9 amended: for text whose length after stripping leading/trailing
whitespace and collapsing newlines exceeds 400, the preview is exactly 400
characters and ends in an ellipsis; text at most 400 characters long after
stripping is returned (stripped, newline-collapsed) without truncation. -/
theorem c9_preview_truncation (text : String) :
    (400 < ((pyStrip text.data).map (fun c => if c = '\n' then ' ' else c)).length →
        (_make_preview text 400).data.length = 400 ∧
          (_make_preview text 400).data.reverse.take 3 = ['.', '.', '.']) ∧
      (((pyStrip text.data).map (fun c => if c = '\n' then ' ' else c)).length ≤ 400 →
        _make_preview text 400 =
          String.mk ((pyStrip text.data).map (fun c => if c = '\n' then ' ' else c))) := by
  constructor
  · intro h
    have hneg : ¬ ((pyStrip text.data).map
        (fun c => if c = '\n' then ' ' else c)).length ≤ 400 := Nat.not_le_of_lt h
    have hform : _make_preview text 400 =
        String.mk (((pyStrip text.data).map (fun c => if c = '\n' then ' ' else c)).take 397
          ++ ['.', '.', '.']) := by
      unfold _make_preview
      rw [if_neg hneg]
    rw [hform]
    constructor
    · show (((pyStrip text.data).map (fun c => if c = '\n' then ' ' else c)).take 397
          ++ ['.', '.', '.']).length = 400
      rw [List.length_append, List.length_take]
      have : min 397 ((pyStrip text.data).map (fun c => if c = '\n' then ' ' else c)).length
          = 397 := Nat.min_eq_left (by exact Nat.le_of_lt (Nat.lt_of_lt_of_le (by norm_num) (Nat.le_of_lt h)))
      rw [this]
      rfl
    · show (((pyStrip text.data).map (fun c => if c = '\n' then ' ' else c)).take 397
          ++ ['.', '.', '.']).reverse.take 3 = ['.', '.', '.']
      rw [List.reverse_append]
      rfl
  · intro h
    unfold _make_preview
    rw [if_pos h]

set_option maxRecDepth 4096 in
/-- C9 witness: a 500-character body with no surrounding whitespace yields
a 400-character preview ending in an ellipsis. -/
theorem c9_preview_truncation_witness :
    400 < ((pyStrip (String.mk (List.replicate 500 'a')).data).map
        (fun c => if c = '\n' then ' ' else c)).length ∧
      (_make_preview (String.mk (List.replicate 500 'a')) 400).data.length = 400 ∧
      (_make_preview (String.mk (List.replicate 500 'a')) 400).data.reverse.take 3
        = ['.', '.', '.'] :=
  ⟨by decide, (c9_preview_truncation (String.mk (List.replicate 500 'a'))).1 (by decide)⟩

end SmartDoc
